import Mathlib

/-!
Shallow embedding of `backend/src/main.py` of the ai-screening-mvp repository
(a FastAPI resume-screening service), together with proofs about the claims of
its specification.

Modelling conventions:
* Python strings are `List Char` (sequences of code points).  Helpers such as
  `str.strip`, `str.lower`, `str.splitlines`, slicing, `find`/`rfind` are
  modelled character-for-character; where Python consults full Unicode tables
  (whitespace classes, `\w` in regexes, `str.lower`) the model uses the ASCII
  subset, which is what every input in the claims exercises.
* Python floats are modelled as exact rationals.  Because `ℚ`'s kernel
  arithmetic does not reduce (its normalisation uses well-founded recursion),
  the executable carrier is `PyQ`, an unnormalised fraction with a positive
  denominator; `PyQ.toQ` interprets it in `ℚ` for the statements.  IEEE
  specials (`inf`, `-inf`, `nan`) are the extra constructors of `PyFloat`,
  with Python's comparison semantics (`nan` incomparable).  Sub-ulp rounding
  of double arithmetic is below the model's resolution.
* `json.loads` is modelled by a recursive-descent parser of the JSON grammar
  the CPython scanner accepts (objects with string keys and last-duplicate
  wins, arrays, strings with escapes, numbers, `true`/`false`/`null`, and the
  CPython extensions `NaN`/`Infinity`/`-Infinity`).  The fuel argument plays
  the role of CPython's recursion limit.  Lone surrogate escapes (which give
  unpaired-surrogate Python strings, unrepresentable in `Char`) make the model
  parser fail; no claim involves them.
* `random.seed`/`random.uniform` are the Mersenne Twister of CPython
  (init_by_array seeding, genrand_res53 output), on `Nat` with explicit
  `% 2^32` where the C code wraps.  `hashlib.sha1` is SHA-1 per FIPS 180.
* PDF text extraction (`extract_pdf_text`) wraps the external pypdf/pdfminer
  libraries; it is treated as an oracle: `screen_candidates` receives each
  file's extracted text directly.  Likewise the OpenAI chat completion is an
  oracle `replies : Nat → List Char` giving the raw model reply of the n-th
  call, and `clientOk : Bool` models `client`/`OPENAI_API_KEY` being set.
-/

namespace AIScreen

/-! ## Exact rationals with computable kernel arithmetic -/

/-- An unnormalised rational number: the value `num / den` with `den > 0`.
Used as the carrier of Python float values so that all arithmetic reduces in
the kernel. -/
structure PyQ where
  num : Int
  den : Nat
  den_pos : 0 < den

instance : DecidableEq PyQ := fun a b =>
  decidable_of_iff (a.num = b.num ∧ a.den = b.den) (by
    cases a; cases b; simp)

/-- The value of a `PyQ` as a rational number. -/
def PyQ.toQ (a : PyQ) : ℚ := (a.num : ℚ) / (a.den : ℚ)

def PyQ.ofInt (n : Int) : PyQ := ⟨n, 1, Nat.one_pos⟩

def PyQ.add (a b : PyQ) : PyQ :=
  ⟨a.num * b.den + b.num * a.den, a.den * b.den, Nat.mul_pos a.den_pos b.den_pos⟩

def PyQ.mul (a b : PyQ) : PyQ :=
  ⟨a.num * b.num, a.den * b.den, Nat.mul_pos a.den_pos b.den_pos⟩

/-- Division by a positive natural number (the only division the code needs:
powers of ten from decimal literals, `2^53`, and `100`). -/
def PyQ.divNat (a : PyQ) (d : Nat) (h : 0 < d) : PyQ :=
  ⟨a.num, a.den * d, Nat.mul_pos a.den_pos h⟩

def PyQ.neg (a : PyQ) : PyQ := ⟨-a.num, a.den, a.den_pos⟩

/-- Strict comparison of values, by cross multiplication. -/
def PyQ.blt (a b : PyQ) : Bool := a.num * b.den < b.num * a.den

/-- Floor of the value (`/` on `ℤ` rounds toward `-∞` for a positive
denominator). -/
def PyQ.floor (a : PyQ) : Int := a.num / (a.den : Int)

lemma PyQ.den_ne_zero_q (a : PyQ) : (a.den : ℚ) ≠ 0 := by
  exact_mod_cast Nat.pos_iff_ne_zero.mp a.den_pos

lemma PyQ.den_pos_q (a : PyQ) : (0 : ℚ) < (a.den : ℚ) := by
  exact_mod_cast a.den_pos

lemma PyQ.toQ_ofInt (n : Int) : (PyQ.ofInt n).toQ = (n : ℚ) := by
  simp [PyQ.toQ, PyQ.ofInt]

lemma PyQ.toQ_add (a b : PyQ) : (a.add b).toQ = a.toQ + b.toQ := by
  unfold PyQ.add PyQ.toQ
  have ha := a.den_ne_zero_q
  have hb := b.den_ne_zero_q
  field_simp

lemma PyQ.toQ_mul (a b : PyQ) : (a.mul b).toQ = a.toQ * b.toQ := by
  unfold PyQ.mul PyQ.toQ
  have ha := a.den_ne_zero_q
  have hb := b.den_ne_zero_q
  field_simp

lemma PyQ.toQ_divNat (a : PyQ) (d : Nat) (h : 0 < d) :
    (a.divNat d h).toQ = a.toQ / (d : ℚ) := by
  unfold PyQ.divNat PyQ.toQ
  have ha := a.den_ne_zero_q
  have hd : (d : ℚ) ≠ 0 := by exact_mod_cast Nat.pos_iff_ne_zero.mp h
  field_simp

lemma PyQ.toQ_neg (a : PyQ) : a.neg.toQ = -a.toQ := by
  simp [PyQ.neg, PyQ.toQ, neg_div]

lemma PyQ.blt_iff (a b : PyQ) : a.blt b = true ↔ a.toQ < b.toQ := by
  unfold PyQ.blt PyQ.toQ
  rw [div_lt_div_iff₀ a.den_pos_q b.den_pos_q]
  constructor
  · intro h
    exact_mod_cast (by exact_mod_cast of_decide_eq_true h :
      a.num * (b.den : Int) < b.num * (a.den : Int))
  · intro h
    exact decide_eq_true (by exact_mod_cast h)

lemma PyQ.floor_eq (a : PyQ) : a.floor = ⌊a.toQ⌋ := by
  unfold PyQ.floor PyQ.toQ
  exact (Rat.floor_intCast_div_natCast a.num a.den).symm

/-! ## Python `round(x, 2)`: round half to even at two decimals -/

/-- Round half to even to the nearest integer (CPython `round` semantics on
the exact value). -/
def intRoundHalfEven (x : PyQ) : Int :=
  let f := x.floor
  let t := 2 * (x.num - f * x.den)
  if t < (x.den : Int) then f
  else if (x.den : Int) < t then f + 1
  else if f % 2 = 0 then f else f + 1

lemma intRoundHalfEven_bounds (x : PyQ) :
    ⌊x.toQ⌋ ≤ intRoundHalfEven x ∧ intRoundHalfEven x ≤ ⌊x.toQ⌋ + 1 := by
  unfold intRoundHalfEven
  rw [x.floor_eq]
  dsimp only
  split
  · exact ⟨le_refl _, by omega⟩
  · split
    · exact ⟨by omega, le_refl _⟩
    · split
      · exact ⟨le_refl _, by omega⟩
      · exact ⟨by omega, le_refl _⟩

/-- Python `round(q, 2)` on the exact value. -/
def pyqRound2 (a : PyQ) : PyQ :=
  ⟨intRoundHalfEven ((PyQ.ofInt 100).mul a), 100, by norm_num⟩

lemma pyqRound2_toQ (a : PyQ) :
    (pyqRound2 a).toQ = ((intRoundHalfEven ((PyQ.ofInt 100).mul a) : ℚ)) / 100 := by
  simp [pyqRound2, PyQ.toQ]

lemma pyqRound2_range {a : PyQ} {A B : Int}
    (h1 : (A : ℚ) ≤ a.toQ) (h2 : a.toQ < (B : ℚ)) :
    (A : ℚ) ≤ (pyqRound2 a).toQ ∧ (pyqRound2 a).toQ ≤ (B : ℚ) := by
  set x := (PyQ.ofInt 100).mul a with hxdef
  have hx : x.toQ = 100 * a.toQ := by
    rw [hxdef, PyQ.toQ_mul, PyQ.toQ_ofInt]; push_cast; ring
  have hfl : 100 * A ≤ ⌊x.toQ⌋ := Int.le_floor.mpr (by rw [hx]; push_cast; linarith)
  have hfu : ⌊x.toQ⌋ < 100 * B := Int.floor_lt.mpr (by rw [hx]; push_cast; linarith)
  obtain ⟨hl, hu⟩ := intRoundHalfEven_bounds x
  have hrl : 100 * A ≤ intRoundHalfEven x := le_trans hfl hl
  have hru : intRoundHalfEven x ≤ 100 * B := by omega
  rw [pyqRound2_toQ, ← hxdef]
  constructor
  · rw [le_div_iff₀ (by norm_num : (0:ℚ) < 100)]
    calc (A : ℚ) * 100 = ((100 * A : ℤ) : ℚ) := by push_cast; ring
    _ ≤ _ := by exact_mod_cast hrl
  · rw [div_le_iff₀ (by norm_num : (0:ℚ) < 100)]
    calc ((intRoundHalfEven x : ℚ)) ≤ ((100 * B : ℤ) : ℚ) := by exact_mod_cast hru
    _ = (B : ℚ) * 100 := by push_cast; ring

/-- The rounded value is an exact multiple of `1/100` ("rounded to 2
decimals"). -/
lemma pyqRound2_two_decimals (a : PyQ) :
    ∃ n : ℤ, (pyqRound2 a).toQ = (n : ℚ) / 100 :=
  ⟨intRoundHalfEven ((PyQ.ofInt 100).mul a), pyqRound2_toQ a⟩

/-! ## Python float values: finite exact value or an IEEE special -/

inductive PyFloat where
  | fin (q : PyQ)
  | pinf
  | ninf
  | nan
deriving DecidableEq

/-- Python `<` on floats: `nan` compares false with everything. -/
def pyLtB : PyFloat → PyFloat → Bool
  | .nan, _ => false
  | _, .nan => false
  | .ninf, .ninf => false
  | .ninf, _ => true
  | _, .ninf => false
  | .pinf, _ => false
  | .fin _, .pinf => true
  | .fin a, .fin b => a.blt b

/-- CPython `min(a, b)`: returns `b` if `b < a` else `a`. -/
def pyMin (a b : PyFloat) : PyFloat := if pyLtB b a then b else a

/-- CPython `max(a, b)`: returns `b` if `a < b` else `a`. -/
def pyMax (a b : PyFloat) : PyFloat := if pyLtB a b then b else a

/-- Python `round(x, 2)` on a float (specials round to themselves). -/
def pyRound2 : PyFloat → PyFloat
  | .fin q => .fin (pyqRound2 q)
  | x => x

/-! ## Python string helpers -/

/-- Whitespace stripped by `str.strip()` and matched by `\s` in the fence
regexes (ASCII subset of the Unicode classes Python uses). -/
def isSpaceChar (c : Char) : Bool :=
  c = ' ' || c = '\t' || c = '\n' || c = '\r' || c = '\x0b' || c = '\x0c'

def pyLStrip (s : List Char) : List Char := s.dropWhile isSpaceChar

def pyRStrip (s : List Char) : List Char := (s.reverse.dropWhile isSpaceChar).reverse

/-- Python `str.strip()`. -/
def pyStrip (s : List Char) : List Char := pyRStrip (pyLStrip s)

/-- Python `str.lower()` (ASCII model). -/
def pyLower (s : List Char) : List Char := s.map Char.toLower

/-- Python `str.splitlines()` for the terminators `\n`, `\r`, `\r\n` (the
further Unicode terminators Python also splits on do not occur in the data
handled here). -/
def pySplitlines : List Char → List (List Char)
  | [] => []
  | '\r' :: '\n' :: cs => [] :: pySplitlines cs
  | '\n' :: cs => [] :: pySplitlines cs
  | '\r' :: cs => [] :: pySplitlines cs
  | c :: cs =>
    match pySplitlines cs with
    | [] => [[c]]
    | l :: ls => (c :: l) :: ls

/-- Python `str.find(ch)`: index of the first occurrence, `-1` if absent. -/
def pyFind (s : List Char) (c : Char) : Int :=
  match s.findIdx? (· = c) with
  | some i => (i : Int)
  | none => -1

/-- Python `str.rfind(ch)`: index of the last occurrence, `-1` if absent. -/
def pyRFind (s : List Char) (c : Char) : Int :=
  match s.reverse.findIdx? (· = c) with
  | some i => ((s.length - 1 - i : Nat) : Int)
  | none => -1

/-- Python slice `s[a : b+1]` for `0 ≤ a ≤ b`. -/
def sliceIncl (s : List Char) (a b : Int) : List Char :=
  (s.drop a.toNat).take (b.toNat + 1 - a.toNat)

/-- Python slice `s[-h:]` (note `s[-0:]` is the whole string). -/
def pyTailSlice (s : List Char) (h : Nat) : List Char :=
  if h = 0 then s else s.drop (s.length - h)

/-! ## The JSON value model and `json.loads` -/

/-- A parsed JSON value as produced by `json.loads`.  Numbers carry their
exact value; `nan`/`pinf`/`ninf` arise from the CPython literals `NaN`,
`Infinity`, `-Infinity`. -/
inductive Json where
  | null
  | bool (b : Bool)
  | num (q : PyQ)
  | nan
  | pinf
  | ninf
  | str (s : List Char)
  | arr (elems : List Json)
  | obj (members : List (List Char × Json))

/-- Dict lookup after building from an ordered member list: the last
occurrence of a duplicated key wins, as in a Python dict literal built by
repeated insertion. -/
def objGet (kvs : List (List Char × Json)) (k : List Char) : Option Json :=
  kvs.foldl (fun acc kv => if kv.1 = k then some kv.2 else acc) none

/-- JSON whitespace (exactly the four characters the scanner skips). -/
def isJsonWs (c : Char) : Bool := c = ' ' || c = '\t' || c = '\n' || c = '\r'

def skipWs (s : List Char) : List Char := s.dropWhile isJsonWs

def digitsToNat (ds : List Char) : Nat :=
  ds.foldl (fun a c => a * 10 + (c.toNat - 48)) 0

/-- Integer part of a JSON number: `0` or a nonzero digit followed by digits
(leading zeros are not consumed; the leftover input then fails the
whole-input check exactly as CPython reports extra data). -/
def parseIntPart : List Char → Option (Nat × List Char)
  | '0' :: cs => some (0, cs)
  | c :: cs =>
    if c.isDigit then
      some (digitsToNat (c :: cs.takeWhile Char.isDigit), cs.dropWhile Char.isDigit)
    else none
  | [] => none

/-- Fraction digits, if a `.` follows. -/
def parseFracPart : List Char → Option (List Char) × List Char
  | '.' :: cs =>
    let ds := cs.takeWhile Char.isDigit
    if ds.isEmpty then (none, '.' :: cs) else (some ds, cs.dropWhile Char.isDigit)
  | s => (none, s)

/-- Exponent part, if `e`/`E` follows: sign flag and digit value. -/
def parseExpPart : List Char → Option (Bool × Nat) × List Char
  | c :: cs =>
    if c = 'e' || c = 'E' then
      let (sgn, cs') :=
        match cs with
        | '-' :: r => (true, r)
        | '+' :: r => (false, r)
        | r => (false, r)
      let ds := cs'.takeWhile Char.isDigit
      if ds.isEmpty then (none, c :: cs)
      else (some (sgn, digitsToNat ds), cs'.dropWhile Char.isDigit)
    else (none, c :: cs)
  | [] => (none, [])

/-- Exact value of a parsed JSON number. -/
def pyqOfParts (neg : Bool) (ip : Nat) (frac : List Char) (eneg : Bool) (e : Nat) : PyQ :=
  let n : Int := (ip * 10 ^ frac.length + digitsToNat frac : Nat)
  let n : Int := if neg then -n else n
  if eneg then
    ⟨n, 10 ^ frac.length * 10 ^ e, Nat.mul_pos (Nat.pos_pow_of_pos _ (by norm_num)) (Nat.pos_pow_of_pos _ (by norm_num))⟩
  else
    ⟨n * 10 ^ e, 10 ^ frac.length, Nat.pos_pow_of_pos _ (by norm_num)⟩

/-- A JSON number starting at the head of the input (sign already known). -/
def parseNumber (neg : Bool) (s : List Char) : Option (Json × List Char) :=
  match parseIntPart s with
  | none => none
  | some (ip, r1) =>
    match parseFracPart r1 with
    | (fr, r2) =>
      match parseExpPart r2 with
      | (ex, r3) =>
        let frac := fr.getD []
        let (eneg, e) := ex.getD (false, 0)
        some (.num (pyqOfParts neg ip frac eneg e), r3)

def hexVal (c : Char) : Option Nat :=
  if '0' ≤ c ∧ c ≤ '9' then some (c.toNat - 48)
  else if 'a' ≤ c ∧ c ≤ 'f' then some (c.toNat - 87)
  else if 'A' ≤ c ∧ c ≤ 'F' then some (c.toNat - 55)
  else none

def hex4 (c1 c2 c3 c4 : Char) : Option Nat := do
  let a ← hexVal c1
  let b ← hexVal c2
  let c ← hexVal c3
  let d ← hexVal c4
  return ((a * 16 + b) * 16 + c) * 16 + d

/-- Body of a JSON string after the opening quote.  Strict mode: raw control
characters are rejected; the escapes are the eight simple ones and `\uXXXX`,
with surrogate pairs combined.  A lone surrogate (legal for CPython, which
allows unpaired surrogates in `str`) has no `Char` counterpart and fails. -/
def parseStringBody : List Char → Option (List Char × List Char)
  | [] => none
  | '"' :: cs => some ([], cs)
  | '\\' :: cs =>
    match cs with
    | 'u' :: c1 :: c2 :: c3 :: c4 :: rest =>
      match hex4 c1 c2 c3 c4 with
      | none => none
      | some n =>
        if h : n < 0xd800 ∨ (0xe000 ≤ n ∧ n < 0x110000) then
          (parseStringBody rest).map (fun p => (Char.ofNatAux n (by
            rcases h with h | h
            · exact Or.inl (by omega)
            · exact Or.inr (by omega)) :: p.1, p.2))
        else if h2 : 0xd800 ≤ n ∧ n ≤ 0xdbff then
          match rest with
          | '\\' :: 'u' :: d1 :: d2 :: d3 :: d4 :: rest2 =>
            match hex4 d1 d2 d3 d4 with
            | none => none
            | some m =>
              if hm : 0xdc00 ≤ m ∧ m ≤ 0xdfff then
                let cp := 0x10000 + (n - 0xd800) * 0x400 + (m - 0xdc00)
                (parseStringBody rest2).map (fun p => (Char.ofNatAux cp (by
                  right; omega) :: p.1, p.2))
              else none
          | _ => none
        else none
    | c :: rest =>
      let esc : Option Char :=
        if c = '"' then some '"'
        else if c = '\\' then some '\\'
        else if c = '/' then some '/'
        else if c = 'b' then some '\x08'
        else if c = 'f' then some '\x0c'
        else if c = 'n' then some '\n'
        else if c = 'r' then some '\r'
        else if c = 't' then some '\t'
        else none
      match esc with
      | none => none
      | some ec => (parseStringBody rest).map (fun p => (ec :: p.1, p.2))
    | [] => none
  | c :: cs =>
    if c.toNat < 0x20 then none
    else (parseStringBody cs).map (fun p => (c :: p.1, p.2))

mutual

/-- A JSON value at the head of the input (no leading whitespace).  The fuel
strictly exceeds the number of mutual calls any parse can make (each nesting
level consumes input), standing in for CPython's recursion limit. -/
def parseVal : Nat → List Char → Option (Json × List Char)
  | 0, _ => none
  | _ + 1, [] => none
  | fuel + 1, c :: cs =>
    if c = '"' then
      (parseStringBody cs).map (fun p => (.str p.1, p.2))
    else if c = '{' then
      parseMembers fuel (skipWs cs)
    else if c = '[' then
      parseElems fuel (skipWs cs)
    else if "true".toList.isPrefixOf (c :: cs) then
      some (.bool true, (c :: cs).drop 4)
    else if "false".toList.isPrefixOf (c :: cs) then
      some (.bool false, (c :: cs).drop 5)
    else if "null".toList.isPrefixOf (c :: cs) then
      some (.null, (c :: cs).drop 4)
    else if "NaN".toList.isPrefixOf (c :: cs) then
      some (.nan, (c :: cs).drop 3)
    else if "Infinity".toList.isPrefixOf (c :: cs) then
      some (.pinf, (c :: cs).drop 8)
    else if c = '-' then
      if "Infinity".toList.isPrefixOf cs then some (.ninf, cs.drop 8)
      else parseNumber true cs
    else parseNumber false (c :: cs)

/-- Members of an object, after `{` and whitespace. -/
def parseMembers : Nat → List Char → Option (Json × List Char)
  | 0, _ => none
  | fuel + 1, s =>
    match s with
    | '}' :: cs => some (.obj [], cs)
    | _ => parseMembersLoop fuel s []

/-- One `"key": value` member, then `,` and more members or `}`. -/
def parseMembersLoop : Nat → List Char → List (List Char × Json) →
    Option (Json × List Char)
  | 0, _, _ => none
  | fuel + 1, s, acc =>
    match s with
    | '"' :: cs =>
      match parseStringBody cs with
      | none => none
      | some (key, r1) =>
        match skipWs r1 with
        | ':' :: r2 =>
          match parseVal fuel (skipWs r2) with
          | none => none
          | some (v, r3) =>
            match skipWs r3 with
            | ',' :: r4 => parseMembersLoop fuel (skipWs r4) (acc ++ [(key, v)])
            | '}' :: r4 => some (.obj (acc ++ [(key, v)]), r4)
            | _ => none
        | _ => none
    | _ => none

/-- Elements of an array, after `[` and whitespace. -/
def parseElems : Nat → List Char → Option (Json × List Char)
  | 0, _ => none
  | fuel + 1, s =>
    match s with
    | ']' :: cs => some (.arr [], cs)
    | _ => parseElemsLoop fuel s []

/-- One array element, then `,` and more elements or `]`. -/
def parseElemsLoop : Nat → List Char → List Json → Option (Json × List Char)
  | 0, _, _ => none
  | fuel + 1, s, acc =>
    match parseVal fuel s with
    | none => none
    | some (v, r1) =>
      match skipWs r1 with
      | ',' :: r2 => parseElemsLoop fuel (skipWs r2) (acc ++ [v])
      | ']' :: r2 => some (.arr (acc ++ [v]), r2)
      | _ => none

end

/-- `json.loads`: parse one value, allowing surrounding whitespace, and
require the whole input to be consumed; `none` models a raised
`JSONDecodeError` (or hitting the recursion limit). -/
def json_loads (s : List Char) : Option Json :=
  match parseVal (s.length + 1) (skipWs s) with
  | some (v, rest) => if (skipWs rest).isEmpty then some v else none
  | none => none

/-! ## `coerce_json_from_model` -/

/-- A character matched by `[\w-]` in the opening-fence regex (ASCII model of
`\w`). -/
def isFenceTagChar (c : Char) : Bool := c.isAlphanum || c = '_' || c = '-'

/-- Effect of `re.sub(r"^```[\w-]*\s*", "", s)` on a string that starts with
the fence: drop the three backticks, then the language tag, then the
whitespace run. -/
def stripOpenFence (s : List Char) : List Char :=
  ((s.drop 3).dropWhile isFenceTagChar).dropWhile isSpaceChar

/-- Effect of `re.sub(r"\s*```$", "", s)`: if the string ends with three
backticks, remove them together with the whitespace run before them. -/
def stripCloseFence (s : List Char) : List Char :=
  if "```".toList.isSuffixOf s then pyRStrip (s.take (s.length - 3)) else s

/-- `coerce_json_from_model(raw)`: strip, remove a Markdown code fence if one
opens the reply, slice from the first `{` to the last `}` when both exist in
that order, then `json.loads`; `none` models an exception escaping the
function. -/
def coerce_json_from_model (raw : List Char) : Option Json :=
  let s0 := pyStrip raw
  let s1 := if "```".toList.isPrefixOf s0 then stripCloseFence (stripOpenFence s0) else s0
  let a := pyFind s1 '{'
  let b := pyRFind s1 '}'
  let s2 := if a ≠ -1 ∧ b ≠ -1 ∧ a < b then sliceIncl s1 a b else s1
  json_loads s2

/-! ## Python `float(...)` and `str(...)` on parsed JSON values -/

/-- Python `float(str)`: strips whitespace, accepts an optional sign and then
either `inf`/`infinity`/`nan` (case-insensitive) or a decimal literal with
optional fraction and exponent.  (Underscore digit separators, which CPython
also accepts, are not modelled; no claim depends on them.) -/
def pyFloatOfStrChars (s0 : List Char) : Option PyFloat :=
  let s := pyStrip s0
  let (neg, r) :=
    match s with
    | '-' :: r => (true, r)
    | '+' :: r => (false, r)
    | r => (false, r)
  let low := pyLower r
  if low = "inf".toList ∨ low = "infinity".toList then
    some (if neg then .ninf else .pinf)
  else if low = "nan".toList then some .nan
  else
    let ip := r.takeWhile Char.isDigit
    let r1 := r.dropWhile Char.isDigit
    let (frac, r2) :=
      match r1 with
      | '.' :: t => (t.takeWhile Char.isDigit, t.dropWhile Char.isDigit)
      | t => ([], t)
    if ip.isEmpty ∧ frac.isEmpty then none
    else
      match r2 with
      | [] => some (.fin (pyqOfParts neg (digitsToNat ip) frac false 0))
      | e :: r3 =>
        if e = 'e' ∨ e = 'E' then
          let (eneg, r4) :=
            match r3 with
            | '-' :: t => (true, t)
            | '+' :: t => (false, t)
            | t => (false, t)
          let eds := r4.takeWhile Char.isDigit
          if eds.isEmpty ∨ ¬(r4.dropWhile Char.isDigit).isEmpty then none
          else some (.fin (pyqOfParts neg (digitsToNat ip) frac eneg (digitsToNat eds)))
        else none

/-- Python `float(x)` on a value decoded from JSON: numbers and numeric
strings convert, `True`/`False` give `1.0`/`0.0`, and `None`, lists and dicts
raise `TypeError` (`none`). -/
def pyFloatOfJson : Json → Option PyFloat
  | .num q => some (.fin q)
  | .nan => some .nan
  | .pinf => some .pinf
  | .ninf => some .ninf
  | .bool b => some (.fin (PyQ.ofInt (if b then 1 else 0)))
  | .str s => pyFloatOfStrChars s
  | .null => none
  | .arr _ => none
  | .obj _ => none

/-- Python `str(x)` on a value decoded from JSON.  Only the string case is
ever observable in the claims; the renderings of the other cases are
best-effort (CPython's shortest-repr float printing is not reproduced). -/
def pyStrOfJson : Json → List Char
  | .str s => s
  | .null => "None".toList
  | .bool b => if b then "True".toList else "False".toList
  | .nan => "nan".toList
  | .pinf => "inf".toList
  | .ninf => "-inf".toList
  | .num q => if q.den = 1 then (toString q.num).toList
      else (toString q.num).toList ++ '/' :: (toString q.den).toList
  | .arr _ => "[...]".toList
  | .obj _ => "\x7b...\x7d".toList

/-! ## `openai_score_cv` -/

/-- An HTTP error response (raised `HTTPException`). -/
structure HTTPError where
  status : Nat
  detail : List Char
deriving DecidableEq

/-- The dict `openai_score_cv` returns. -/
structure ScoreResult where
  score : PyFloat
  reason : List Char
  json_mode : Bool
deriving DecidableEq

def MAX_CHARS_PER_CV : Nat := 20000

/-- `truncate_for_model(text, max_chars)`: unchanged when within budget,
otherwise the first `max_chars // 2` characters, the marker `"\n...\n"`, and
the Python tail slice `text[-max_chars//2:]`. -/
def truncate_for_model (text : List Char) (maxChars : Nat) : List Char :=
  if text.length ≤ maxChars then text
  else text.take (maxChars / 2) ++ "\n...\n".toList ++ pyTailSlice text (maxChars / 2)

/-- The fixed system instruction of the scoring prompt. -/
def openai_system_message : List Char :=
  ("You are a careful recruiting screener. " ++
   "Given a list of desired qualities and a single CV's text, " ++
   "judge the fit and respond ONLY with a compact JSON object " ++
   "like \x7b\"score\": \"reason\": \"why the score\"\x7d. " ++
   "Do not include code fences or any extra text.").toList

/-- The user message of the scoring prompt (the f-string of the source). -/
def openai_user_message (qualities_text cv_text candidate_name : List Char) : List Char :=
  "\nQualities (one per line):\n".toList ++ qualities_text ++
  "\n\nCandidate: ".toList ++ candidate_name ++
  "\nCV (truncated if long):\n".toList ++ truncate_for_model cv_text MAX_CHARS_PER_CV ++
  ['\n']

/-- The `try:` block around the reply parse: recover a JSON value, require a
dict (`data.get` would raise otherwise), convert `score` with `float` and
`reason` with `str(...).strip()`. -/
def scoreFromData : Json → Option (PyFloat × List Char)
  | .obj kvs =>
    let sv := (objGet kvs ("score".toList)).getD (.num (PyQ.ofInt 50))
    let rv := (objGet kvs ("reason".toList)).getD (.str [])
    match pyFloatOfJson sv with
    | some f => some (f, pyStrip (pyStrOfJson rv))
    | none => none
  | _ => none

/-- Parse the raw model reply; any exception in the `try:` block yields the
neutral score and fixed rationale. -/
def openai_parse_reply (raw : List Char) : PyFloat × List Char :=
  match (coerce_json_from_model raw).bind scoreFromData with
  | some p => p
  | none => (.fin (PyQ.ofInt 50), "Parse error; defaulted to 50.".toList)

/-- The final clamp `max(0.0, min(100.0, round(score, 2)))`. -/
def openai_clamp (s : PyFloat) : PyFloat :=
  pyMax (.fin (PyQ.ofInt 0)) (pyMin (.fin (PyQ.ofInt 100)) (pyRound2 s))

/-- `openai_score_cv`, given the raw reply text of the chat-completion call
(the network call itself is an oracle; `clientOk` models `client` and
`OPENAI_API_KEY` being configured, `jsonMode` records whether the
structured-output request mode succeeded). -/
def openai_score_cv (clientOk jsonMode : Bool) (raw : List Char) :
    Except HTTPError ScoreResult :=
  if !clientOk then .error ⟨500, "OpenAI client not initialized.".toList⟩
  else
    let (score, reason) := openai_parse_reply raw
    .ok ⟨openai_clamp score, reason, jsonMode⟩

/-! ## SHA-1 (`hashlib.sha1`), on bytes as `Nat` with explicit `% 2^32` -/

/-- UTF-8 encoding of one code point (`str.encode()`). -/
def utf8Char (c : Char) : List Nat :=
  let n := c.toNat
  if n < 0x80 then [n]
  else if n < 0x800 then [0xc0 + n / 0x40, 0x80 + n % 0x40]
  else if n < 0x10000 then
    [0xe0 + n / 0x1000, 0x80 + n / 0x40 % 0x40, 0x80 + n % 0x40]
  else
    [0xf0 + n / 0x40000, 0x80 + n / 0x1000 % 0x40, 0x80 + n / 0x40 % 0x40, 0x80 + n % 0x40]

def utf8Encode (s : List Char) : List Nat := (s.map utf8Char).flatten

def rotl32 (n x : Nat) : Nat := ((x <<< n) ||| (x >>> (32 - n))) % 2 ^ 32

def sha1F (t b c d : Nat) : Nat :=
  if t < 20 then (b &&& c) ||| (((2 ^ 32 - 1) ^^^ b) &&& d)
  else if t < 40 then b ^^^ c ^^^ d
  else if t < 60 then (b &&& c) ||| (b &&& d) ||| (c &&& d)
  else b ^^^ c ^^^ d

def sha1K (t : Nat) : Nat :=
  if t < 20 then 0x5a827999
  else if t < 40 then 0x6ed9eba1
  else if t < 60 then 0x8f1bbcdc
  else 0xca62c1d6

/-- Message padding: `0x80`, zeros to 56 mod 64, then the bit length as eight
big-endian bytes. -/
def sha1PadBytes (m : List Nat) : List Nat :=
  m ++ 0x80 :: List.replicate ((119 - m.length % 64) % 64) 0 ++
    (List.range 8).map (fun i => ((8 * m.length) >>> (8 * (7 - i))) % 256)

/-- Split into 64-byte blocks (fuelled so that the kernel can reduce it; one
unit of fuel covers at least one block). -/
def chunks64Aux : Nat → List Nat → List (List Nat)
  | 0, _ => []
  | _ + 1, [] => []
  | fuel + 1, b :: rest => (b :: rest).take 64 :: chunks64Aux fuel ((b :: rest).drop 64)

def chunks64 (l : List Nat) : List (List Nat) := chunks64Aux (l.length + 1) l

/-- The sixteen big-endian 32-bit words of one block. -/
def sha1Words16 (block : List Nat) : List Nat :=
  (List.range 16).map (fun i =>
    (block.getD (4 * i) 0 <<< 24) + (block.getD (4 * i + 1) 0 <<< 16) +
    (block.getD (4 * i + 2) 0 <<< 8) + block.getD (4 * i + 3) 0)

/-- Expand to the eighty-word schedule (the accumulator is kept reversed, so
`w[t-3]`, `w[t-8]`, `w[t-14]`, `w[t-16]` are at offsets 2, 7, 13, 15). -/
def sha1Sched (ws : List Nat) : List Nat :=
  ((List.range 64).foldl
    (fun acc _ =>
      rotl32 1 (acc.getD 2 0 ^^^ acc.getD 7 0 ^^^ acc.getD 13 0 ^^^ acc.getD 15 0) :: acc)
    ws.reverse).reverse

def sha1Round (t w : Nat) (st : Nat × Nat × Nat × Nat × Nat) :
    Nat × Nat × Nat × Nat × Nat :=
  let (a, b, c, d, e) := st
  ((rotl32 5 a + sha1F t b c d + e + sha1K t + w) % 2 ^ 32, a, rotl32 30 b, c, d)

def sha1Block (h : Nat × Nat × Nat × Nat × Nat) (block : List Nat) :
    Nat × Nat × Nat × Nat × Nat :=
  let (a, b, c, d, e) :=
    (sha1Sched (sha1Words16 block)).enum.foldl (fun st p => sha1Round p.1 p.2 st) h
  let (h0, h1, h2, h3, h4) := h
  ((h0 + a) % 2 ^ 32, (h1 + b) % 2 ^ 32, (h2 + c) % 2 ^ 32,
   (h3 + d) % 2 ^ 32, (h4 + e) % 2 ^ 32)

/-- The 160-bit digest as one natural number; this equals CPython's
`int(sha1(m).hexdigest(), 16)`. -/
def sha1Digest (m : List Nat) : Nat :=
  let (h0, h1, h2, h3, h4) :=
    (chunks64 (sha1PadBytes m)).foldl sha1Block
      (0x67452301, 0xefcdab89, 0x98badcfe, 0x10325476, 0xc3d2e1f0)
  ((((h0 <<< 32) ||| h1) <<< 32 ||| h2) <<< 32 ||| h3) <<< 32 ||| h4

def hexDigitChar (n : Nat) : Char :=
  if n < 10 then Char.ofNat (48 + n) else Char.ofNat (87 + n)

/-- Lowercase hex digits of `n`, `k` digits, most significant first
(`hexdigest()` of a digest is `natHexDigits 40`). -/
def natHexDigits : Nat → Nat → List Char
  | 0, _ => []
  | k + 1, n => natHexDigits k (n / 16) ++ [hexDigitChar (n % 16)]

def sha1HexChars (m : List Nat) : List Char := natHexDigits 40 (sha1Digest m)

/-! ## The Mersenne Twister of `random.seed` / `random.uniform` -/

/-- Generator state: the 624 32-bit words and the output index. -/
structure MTState where
  mt : List Nat
  idx : Nat

def initGenrand (s : Nat) : List Nat :=
  ((List.range 623).foldl
    (fun acc i =>
      ((1812433253 * (acc.headD 0 ^^^ (acc.headD 0 >>> 30)) + (i + 1)) % 2 ^ 32) :: acc)
    [s % 2 ^ 32]).reverse

/-- One step of the first `init_by_array` mixing loop. -/
def ibaStep1 (key : List Nat) (st : List Nat × Nat × Nat) (_ : Nat) :
    List Nat × Nat × Nat :=
  let (mt, i, j) := st
  let prev := mt.getD (i - 1) 0
  let v := ((mt.getD i 0 ^^^ ((prev ^^^ (prev >>> 30)) * 1664525 % 2 ^ 32)) +
    key.getD j 0 + j) % 2 ^ 32
  let mt1 := mt.set i v
  let i1 := i + 1
  let (mt2, i2) := if 624 ≤ i1 then (mt1.set 0 (mt1.getD 623 0), 1) else (mt1, i1)
  let j1 := if key.length ≤ j + 1 then 0 else j + 1
  (mt2, i2, j1)

/-- One step of the second `init_by_array` mixing loop (the `- i` is uint32
subtraction, `i ≤ 623 < 2^32`). -/
def ibaStep2 (st : List Nat × Nat) (_ : Nat) : List Nat × Nat :=
  let (mt, i) := st
  let prev := mt.getD (i - 1) 0
  let v := ((mt.getD i 0 ^^^ ((prev ^^^ (prev >>> 30)) * 1566083941 % 2 ^ 32)) +
    (2 ^ 32 - i)) % 2 ^ 32
  let mt1 := mt.set i v
  let i1 := i + 1
  if 624 ≤ i1 then (mt1.set 0 (mt1.getD 623 0), 1) else (mt1, i1)

def initByArray (key : List Nat) : List Nat :=
  let mt0 := initGenrand 19650218
  let k := max 624 key.length
  let st1 := (List.range k).foldl (ibaStep1 key) (mt0, 1, 0)
  let st2 := (List.range 623).foldl ibaStep2 (st1.1, st1.2.1)
  st2.1.set 0 0x80000000

/-- The 32-bit words of a nonnegative integer, least significant first
(fuelled; `n` units of fuel always suffice). -/
def leWordsAux : Nat → Nat → List Nat
  | 0, _ => []
  | fuel + 1, n =>
    if n = 0 then [] else (n % 2 ^ 32) :: leWordsAux fuel (n / 2 ^ 32)

/-- How `random.seed(int)` keys `init_by_array`: the 32-bit words of the
(nonnegative) seed, least significant first. -/
def pySeedKey (n : Nat) : List Nat := if n = 0 then [0] else leWordsAux n n

/-- `random.seed(n)` for a nonnegative int: replaces the generator state. -/
def pySeedInt (n : Nat) : MTState := ⟨initByArray (pySeedKey n), 624⟩

/-- Regenerate all 624 words in place. -/
def mtGenStep (m : List Nat) (kk : Nat) : List Nat :=
  let y := (m.getD kk 0 &&& 0x80000000) + (m.getD ((kk + 1) % 624) 0 &&& 0x7fffffff)
  let v := (m.getD ((kk + 397) % 624) 0 ^^^ (y >>> 1) ^^^
    (if y % 2 = 1 then 0x9908b0df else 0)) % 2 ^ 32
  m.set kk v

def mtGenerate (m : List Nat) : List Nat := (List.range 624).foldl mtGenStep m

/-- Tempering; the final `% 2^32` is the uint32 type of the result. -/
def mtTemper (y0 : Nat) : Nat :=
  let y1 := y0 ^^^ (y0 >>> 11)
  let y2 := y1 ^^^ ((y1 <<< 7) &&& 0x9d2c5680)
  let y3 := y2 ^^^ ((y2 <<< 15) &&& 0xefc60000)
  (y3 ^^^ (y3 >>> 18)) % 2 ^ 32

/-- `genrand_int32`. -/
def mtNext (g : MTState) : Nat × MTState :=
  if 624 ≤ g.idx then
    let m := mtGenerate g.mt
    (mtTemper (m.getD 0 0), ⟨m, 1⟩)
  else
    (mtTemper (g.mt.getD g.idx 0), ⟨g.mt, g.idx + 1⟩)

/-- `random.random()`: `genrand_res53`, an exact dyadic rational in `[0,1)`.
The float arithmetic `(a*67108864.0+b)*(1.0/9007199254740992.0)` is exact. -/
def mtRandom (g : MTState) : PyQ × MTState :=
  let p1 := mtNext g
  let p2 := mtNext p1.2
  (⟨((p1.1 >>> 5) * 67108864 + (p2.1 >>> 6) : Nat), 9007199254740992, by norm_num⟩, p2.2)

/-- `mock_score_candidate(name, qualities)`: seed the global generator from
the SHA-1 of `f"{name}:{qualities}"` and round `random.uniform(10, 100)` to
two decimals.  The incoming generator state `g` is the global `random` state
at call time. -/
def mock_score_candidate (g : MTState) (name qualities : List Char) : PyQ × MTState :=
  let seed := sha1Digest (utf8Encode (name ++ ':' :: qualities))
  let p := mtRandom (pySeedInt seed)
  (pyqRound2 ((PyQ.ofInt 10).add ((PyQ.ofInt (100 - 10)).mul p.1)), p.2)

/-! ## The `/api/screen` endpoint -/

/-- The module-level toggle of the source (`USE_OPENAI = True`). -/
def USE_OPENAI : Bool := true

/-- One uploaded file, with the text the extraction oracle
(`extract_pdf_text`) produced for its content. -/
structure ScreenedFile where
  filename : List Char
  text : List Char

/-- One entry of the response array. -/
structure Candidate where
  id : List Char
  name : List Char
  score : PyFloat
  url : Option (List Char)
deriving DecidableEq

/-- `os.path.basename` (POSIX): the part after the last `/`. -/
def pyBasename (s : List Char) : List Char := (s.reverse.takeWhile (· ≠ '/')).reverse

/-- The stem of `os.path.splitext`: split at the last dot, except that a name
whose characters before that dot (after the last separator) are all dots has
no extension. -/
def pySplitextBase (p : List Char) : List Char :=
  let sep := pyRFind p '/'
  let dot := pyRFind p '.'
  if sep < dot then
    let mid := (p.take dot.toNat).drop (sep + 1).toNat
    if mid.any (· ≠ '.') then p.take dot.toNat else p
  else p

/-- `os.path.splitext(os.path.basename(f.filename))[0]`. -/
def candName (filename : List Char) : List Char := pySplitextBase (pyBasename filename)

/-- `f"{n}"` for a natural number. -/
def natDecimalChars (n : Nat) : List Char := (toString n).toList

/-- `hashlib.sha1(f"{name}:{len(text)}".encode()).hexdigest()[:10]`. -/
def mkId (name : List Char) (textLen : Nat) : List Char :=
  (sha1HexChars (utf8Encode (name ++ ':' :: natDecimalChars textLen))).take 10

/-- The response record appended for one candidate. -/
def mkCandidate (name text : List Char) (score : PyFloat) : Candidate :=
  ⟨mkId name text.length, name, score, none⟩

/-- The filename filter `f.filename.lower().endswith(".pdf")`. -/
def isPdfName (fn : List Char) : Bool := ".pdf".toList.isSuffixOf (pyLower fn)

/-- Insert before the first strictly smaller score (descending order, stable
for earlier-inserted equal scores). -/
def insertDesc (x : Candidate) : List Candidate → List Candidate
  | [] => [x]
  | y :: ys => if pyLtB y.score x.score then x :: y :: ys else y :: insertDesc x ys

/-- `results.sort(key=lambda r: r["score"], reverse=True)`: a stable
descending sort by score.  Python's timsort and this insertion sort agree on
every comparison set arising here (all scores are finite, so the comparator
is a total preorder). -/
def sortByScoreDesc (l : List Candidate) : List Candidate :=
  l.foldl (fun acc x => insertDesc x acc) []

/-- The per-candidate loop.  `acc` is `results`, `n` counts scorer
invocations so far (and indexes the reply oracle), `g` is the global
`random` module state threaded through the (dead, `USE_OPENAI = True`) mock
branch.  An `HTTPException` aborts the loop. -/
def screenLoop (clientOk jsonMode : Bool) (replies : Nat → List Char)
    (qualities_text : List Char) :
    List ScreenedFile → List Candidate → Nat → MTState →
    Except HTTPError (List Candidate) × Nat
  | [], acc, n, _ => (.ok acc, n)
  | f :: rest, acc, n, g =>
    if !isPdfName f.filename then
      (.error ⟨400, "Only PDFs allowed: ".toList ++ f.filename⟩, n)
    else
      let name := candName f.filename
      let text := f.text
      if USE_OPENAI then
        match openai_score_cv clientOk jsonMode (replies n) with
        | .error e => (.error e, n + 1)
        | .ok r =>
          screenLoop clientOk jsonMode replies qualities_text rest
            (acc ++ [mkCandidate name text r.score]) (n + 1) g
      else
        let (q, g1) := mock_score_candidate g name qualities_text
        screenLoop clientOk jsonMode replies qualities_text rest
          (acc ++ [mkCandidate name text (.fin q)]) (n + 1) g1

/-- `POST /api/screen`: validation, per-candidate extraction (oracular) and
scoring, then the response sorted by descending score.  The second component
counts scorer invocations (calls of `openai_score_cv` or
`mock_score_candidate`). -/
def screen_candidates (clientOk jsonMode : Bool) (replies : Nat → List Char)
    (g : MTState) (files : List ScreenedFile) (qualities : List Char) :
    Except HTTPError (List Candidate) × Nat :=
  if files.isEmpty then (.error ⟨400, "No files uploaded.".toList⟩, 0)
  else if (pyStrip qualities).isEmpty then
    (.error ⟨400, "Qualities are required.".toList⟩, 0)
  else
    let qualities_list := ((pySplitlines qualities).map pyStrip).filter (fun q => !q.isEmpty)
    let qualities_text :=
      if qualities_list.isEmpty then pyStrip qualities
      else List.intercalate ("\n".toList) (qualities_list.map (fun q => "- ".toList ++ q))
    match screenLoop clientOk jsonMode replies qualities_text files [] 0 g with
    | (.ok res, n) => (.ok (sortByScoreDesc res), n)
    | (.error e, n) => (.error e, n)

/-- Whether a float is finite. -/
def PyFloat.isFin : PyFloat → Bool
  | .fin _ => true
  | _ => false

/-- Whether the identifiers of a completed response are pairwise distinct. -/
def responseIdsDistinct : Except HTTPError (List Candidate) × Nat → Bool
  | (.ok l, _) => (l.map Candidate.id).Nodup
  | (.error _, _) => true

/-! # Supporting lemmas -/

lemma openai_clamp_spec (s : PyFloat) :
    ∃ q : PyQ, openai_clamp s = .fin q ∧ 0 ≤ q.toQ ∧ q.toQ ≤ 100 ∧
      ∃ n : ℤ, q.toQ = (n : ℚ) / 100 := by
  have h100 : (PyQ.ofInt 100).toQ = 100 := by rw [PyQ.toQ_ofInt]; norm_num
  have h0 : (PyQ.ofInt 0).toQ = 0 := by rw [PyQ.toQ_ofInt]; norm_num
  cases s with
  | fin a =>
    obtain ⟨n, hn⟩ := pyqRound2_two_decimals a
    show ∃ q, pyMax (.fin (PyQ.ofInt 0)) (pyMin (.fin (PyQ.ofInt 100)) (.fin (pyqRound2 a))) =
      .fin q ∧ _
    set r := pyqRound2 a with hr
    by_cases hlt : pyLtB (.fin r) (.fin (PyQ.ofInt 100)) = true
    · rw [pyMin, if_pos hlt]
      have hrlt : r.toQ < 100 := by
        have := (PyQ.blt_iff r (PyQ.ofInt 100)).mp hlt
        rwa [h100] at this
      by_cases hgt : pyLtB (.fin (PyQ.ofInt 0)) (.fin r) = true
      · rw [pyMax, if_pos hgt]
        have hrgt : 0 < r.toQ := by
          have := (PyQ.blt_iff (PyQ.ofInt 0) r).mp hgt
          rwa [h0] at this
        exact ⟨r, rfl, le_of_lt hrgt, le_of_lt hrlt, n, hn⟩
      · rw [pyMax, if_neg hgt]
        exact ⟨PyQ.ofInt 0, rfl, by rw [h0], by rw [h0]; norm_num, 0, by rw [h0]; norm_num⟩
    · rw [pyMin, if_neg hlt, pyMax, if_pos (by decide)]
      exact ⟨PyQ.ofInt 100, rfl, by rw [h100]; norm_num, by rw [h100], 10000,
        by rw [h100]; norm_num⟩
  | pinf =>
    exact ⟨PyQ.ofInt 100, by decide, by rw [h100]; norm_num, by rw [h100], 10000,
      by rw [h100]; norm_num⟩
  | ninf =>
    exact ⟨PyQ.ofInt 0, by decide, by rw [h0], by rw [h0]; norm_num, 0, by rw [h0]; norm_num⟩
  | nan =>
    exact ⟨PyQ.ofInt 100, by decide, by rw [h100]; norm_num, by rw [h100], 10000,
      by rw [h100]; norm_num⟩

/-- With the client configured, `openai_score_cv` always returns the parsed
and clamped result. -/
lemma openai_score_cv_ok (jsonMode : Bool) (raw : List Char) :
    openai_score_cv true jsonMode raw =
      .ok ⟨openai_clamp (openai_parse_reply raw).1, (openai_parse_reply raw).2, jsonMode⟩ := rfl

/-! # The claims -/

/-- C1: for every reply string the external model returns (including replies
whose JSON lacks a score field or carries an out-of-range score), the score
in the dict returned by `openai_score_cv` lies in `[0, 100]` after clamping
and is rounded to 2 decimals. -/
theorem openai_score_cv_score_in_range (clientOk jsonMode : Bool) (raw : List Char)
    (r : ScoreResult) (h : openai_score_cv clientOk jsonMode raw = .ok r) :
    ∃ q : PyQ, r.score = .fin q ∧ 0 ≤ q.toQ ∧ q.toQ ≤ 100 ∧
      ∃ n : ℤ, q.toQ = (n : ℚ) / 100 := by
  cases clientOk with
  | false => simp [openai_score_cv] at h
  | true =>
    rw [openai_score_cv_ok] at h
    have hr := Except.ok.inj h
    subst hr
    exact openai_clamp_spec (openai_parse_reply raw).1

/-- Witness for C1 at the out-of-range reply `{"score": 150, "reason": "x"}`
(clamped to 100). -/
theorem openai_score_cv_score_in_range_witness :
    ∃ q : PyQ,
      (ScoreResult.mk (.fin (PyQ.ofInt 100)) ("x".toList) true).score = .fin q ∧
      0 ≤ q.toQ ∧ q.toQ ≤ 100 ∧ ∃ n : ℤ, q.toQ = (n : ℚ) / 100 :=
  openai_score_cv_score_in_range true true
    ("\x7b\"score\": 150, \"reason\": \"x\"\x7d".toList) _ (by rfl)

/-- C2: for every raw reply on which JSON recovery fails (e.g. the non-JSON
text "I think this candidate is great"), `openai_score_cv` does not raise but
returns the neutral score `50.0` with the rationale
"Parse error; defaulted to 50.", so the request as a whole still succeeds. -/
theorem openai_score_cv_parse_failure_neutral (jsonMode : Bool) (raw : List Char)
    (h : coerce_json_from_model raw = none) :
    ∃ q : PyQ,
      openai_score_cv true jsonMode raw =
        .ok ⟨.fin q, "Parse error; defaulted to 50.".toList, jsonMode⟩ ∧
      q.toQ = 50 := by
  have hp : openai_parse_reply raw =
      (.fin (PyQ.ofInt 50), "Parse error; defaulted to 50.".toList) := by
    unfold openai_parse_reply
    rw [h]
    rfl
  refine ⟨⟨5000, 100, by norm_num⟩, ?_, by unfold PyQ.toQ; norm_num⟩
  rw [openai_score_cv_ok, hp]
  rfl

/-- Witness for C2 at the plain-prose reply of the claim. -/
theorem openai_score_cv_parse_failure_neutral_witness :
    ∃ q : PyQ,
      openai_score_cv true true ("I think this candidate is great".toList) =
        .ok ⟨.fin q, "Parse error; defaulted to 50.".toList, true⟩ ∧
      q.toQ = 50 :=
  openai_score_cv_parse_failure_neutral true
    ("I think this candidate is great".toList) (by rfl)

/-- C8 counterexample: already for the 11-character text below and budget 10
the result has 15 characters (`10/2 + 5 + 10/2`), so the claimed bound "the
result's length does not exceed the budget max_chars" fails. -/
theorem truncate_for_model_budget_cex :
    ¬ ((truncate_for_model ("abcdefghijk".toList) 10).length ≤ 10) := by decide

/-- C8 amended: text within the budget is returned unchanged; longer text
becomes the first `max_chars // 2` characters, the elision marker, and the
Python tail slice `text[-max_chars//2:]` (which is the whole text when
`max_chars // 2 = 0`), and for `max_chars ≥ 2` the result's length is bounded
by `max_chars + 5` (the marker's length), not by `max_chars` itself. -/
theorem truncate_for_model_spec (text : List Char) (maxChars : Nat) :
    (text.length ≤ maxChars → truncate_for_model text maxChars = text) ∧
    (maxChars < text.length →
      truncate_for_model text maxChars =
        text.take (maxChars / 2) ++ "\n...\n".toList ++ pyTailSlice text (maxChars / 2) ∧
      (2 ≤ maxChars → (truncate_for_model text maxChars).length ≤ maxChars + 5)) := by
  refine ⟨fun h => by simp [truncate_for_model, h], fun h => ⟨?_, fun h2 => ?_⟩⟩
  · unfold truncate_for_model
    rw [if_neg (by omega)]
  · have hh : 1 ≤ maxChars / 2 := (Nat.one_le_div_iff (by norm_num)).mpr h2
    unfold truncate_for_model
    rw [if_neg (by omega)]
    rw [List.length_append, List.length_append, List.length_take]
    unfold pyTailSlice
    rw [if_neg (by omega), List.length_drop]
    have hm : ("\n...\n".toList).length = 5 := by decide
    rw [hm]
    omega

/-- Witness for C8 at text "abcdef" and budget 4. -/
theorem truncate_for_model_spec_witness :
    truncate_for_model ("abcdef".toList) 4 =
      ("abcdef".toList).take 2 ++ "\n...\n".toList ++ pyTailSlice ("abcdef".toList) 2 ∧
    (truncate_for_model ("abcdef".toList) 4).length ≤ 9 :=
  ⟨((truncate_for_model_spec ("abcdef".toList) 4).2 (by decide)).1,
   ((truncate_for_model_spec ("abcdef".toList) 4).2 (by decide)).2 (by decide)⟩

/-- C4: for every pair (name, qualities), two calls of
`mock_score_candidate` with identical inputs return an identical score, no
matter the state of the global `random` generator at each call: the function
reseeds from the SHA-1 of its inputs, so the score is a deterministic
function of its arguments. -/
theorem mock_score_candidate_deterministic (g g' : MTState)
    (name qualities : List Char) :
    (mock_score_candidate g name qualities).1 =
      (mock_score_candidate g' name qualities).1 := rfl

lemma mtTemper_lt (y : Nat) : mtTemper y < 2 ^ 32 :=
  Nat.mod_lt _ (by norm_num)

lemma mtNext_fst_lt (g : MTState) : (mtNext g).1 < 2 ^ 32 := by
  unfold mtNext
  split
  · exact mtTemper_lt _
  · exact mtTemper_lt _

lemma mtRandom_fst_range (g : MTState) :
    0 ≤ (mtRandom g).1.toQ ∧ (mtRandom g).1.toQ < 1 := by
  have e32 : (2:Nat) ^ 32 = 4294967296 := by norm_num
  have hy1 : (mtNext g).1 < 4294967296 := by rw [← e32]; exact mtNext_fst_lt _
  have hy2 : (mtNext (mtNext g).2).1 < 4294967296 := by rw [← e32]; exact mtNext_fst_lt _
  have ha : (mtNext g).1 >>> 5 < 134217728 := by
    rw [Nat.shiftRight_eq_div_pow]
    omega
  have hb : (mtNext (mtNext g).2).1 >>> 6 < 67108864 := by
    rw [Nat.shiftRight_eq_div_pow]
    omega
  have hk : ((mtNext g).1 >>> 5) * 67108864 + ((mtNext (mtNext g).2).1 >>> 6) <
      9007199254740992 := by omega
  unfold mtRandom
  simp only [PyQ.toQ]
  constructor
  · positivity
  · rw [div_lt_one (by norm_num)]
    push_cast
    exact_mod_cast hk

/-- C10: for every pair (name, qualities) — and every state of the global
generator — the score returned by `mock_score_candidate` lies in `[10, 100]`
and is rounded to 2 decimals. -/
theorem mock_score_candidate_range (g : MTState) (name qualities : List Char) :
    10 ≤ (mock_score_candidate g name qualities).1.toQ ∧
    (mock_score_candidate g name qualities).1.toQ ≤ 100 ∧
    ∃ n : ℤ, (mock_score_candidate g name qualities).1.toQ = (n : ℚ) / 100 := by
  obtain ⟨hu0, hu1⟩ :=
    mtRandom_fst_range (pySeedInt (sha1Digest (utf8Encode (name ++ ':' :: qualities))))
  set u := (mtRandom (pySeedInt (sha1Digest (utf8Encode (name ++ ':' :: qualities))))).1
    with hu
  have hval : ((PyQ.ofInt 10).add ((PyQ.ofInt (100 - 10)).mul u)).toQ =
      10 + 90 * u.toQ := by
    rw [PyQ.toQ_add, PyQ.toQ_mul, PyQ.toQ_ofInt, PyQ.toQ_ofInt]
    norm_num
  have h1 : ((10 : ℤ) : ℚ) ≤ ((PyQ.ofInt 10).add ((PyQ.ofInt (100 - 10)).mul u)).toQ := by
    rw [hval]; push_cast; linarith
  have h2 : ((PyQ.ofInt 10).add ((PyQ.ofInt (100 - 10)).mul u)).toQ < ((100 : ℤ) : ℚ) := by
    rw [hval]; push_cast; linarith
  obtain ⟨hA, hB⟩ := pyqRound2_range h1 h2
  have hmock : (mock_score_candidate g name qualities).1 =
      pyqRound2 ((PyQ.ofInt 10).add ((PyQ.ofInt (100 - 10)).mul u)) := rfl
  rw [hmock]
  refine ⟨by exact_mod_cast hA, by exact_mod_cast hB, pyqRound2_two_decimals _⟩

/-! # String lemmas for the JSON-recovery claims -/

lemma pyLStrip_of_head {s : List Char} {c : Char} (h : s.head? = some c)
    (hc : isSpaceChar c = false) : pyLStrip s = s := by
  cases s with
  | nil => rfl
  | cons a t =>
    have : a = c := by simpa using h
    subst this
    simp [pyLStrip, List.dropWhile_cons, hc]

lemma pyRStrip_of_getLast {s : List Char} {c : Char} (h : s.getLast? = some c)
    (hc : isSpaceChar c = false) : pyRStrip s = s := by
  obtain ⟨t, rfl⟩ := List.getLast?_eq_some_iff.mp h
  unfold pyRStrip
  rw [List.reverse_append, List.reverse_singleton, List.singleton_append,
    List.dropWhile_cons, hc]
  simp

lemma pyStrip_of_ends {s : List Char} {c d : Char} (h1 : s.head? = some c)
    (hc : isSpaceChar c = false) (h2 : s.getLast? = some d)
    (hd : isSpaceChar d = false) : pyStrip s = s := by
  unfold pyStrip
  rw [pyLStrip_of_head h1 hc, pyRStrip_of_getLast h2 hd]

lemma pyFind_of_head {t : List Char} {c : Char} : pyFind (c :: t) c = 0 := by
  simp [pyFind, List.findIdx?_cons]

lemma pyFind_append_of_head {p j : List Char} {c : Char} (hp : ∀ x ∈ p, x ≠ c)
    (hj : j.head? = some c) : pyFind (p ++ j) c = (p.length : Int) := by
  cases j with
  | nil => cases hj
  | cons a t =>
    have ha : a = c := by simpa using hj
    subst ha
    unfold pyFind
    rw [List.findIdx?_append]
    have hpn : p.findIdx? (· = a) = none :=
      List.findIdx?_eq_none_iff.mpr (fun x hx => by simpa using hp x hx)
    rw [hpn, Option.none_or]
    simp [List.findIdx?_cons]

lemma pyRFind_append_of_getLast {s q : List Char} {c : Char} (hq : ∀ x ∈ q, x ≠ c)
    (hs : s.getLast? = some c) : pyRFind (s ++ q) c = ((s.length - 1 : Nat) : Int) := by
  obtain ⟨t, rfl⟩ := List.getLast?_eq_some_iff.mp hs
  unfold pyRFind
  rw [List.reverse_append, List.reverse_append, List.reverse_singleton]
  have hqn : q.reverse.findIdx? (· = c) = none :=
    List.findIdx?_eq_none_iff.mpr (fun x hx => by
      simpa using hq x (List.mem_reverse.mp hx))
  rw [List.findIdx?_append, hqn, Option.none_or, List.singleton_append,
    List.findIdx?_cons]
  simp

lemma pyRFind_of_getLast {s : List Char} {c : Char} (h : s.getLast? = some c) :
    pyRFind s c = ((s.length - 1 : Nat) : Int) := by
  obtain ⟨t, rfl⟩ := List.getLast?_eq_some_iff.mp h
  unfold pyRFind
  rw [List.reverse_append, List.reverse_singleton, List.singleton_append,
    List.findIdx?_cons]
  simp

lemma sliceIncl_zero_last {s : List Char} (h : 1 ≤ s.length) :
    sliceIncl s 0 ((s.length - 1 : Nat) : Int) = s := by
  unfold sliceIncl
  rw [Int.toNat_zero, Int.toNat_natCast, List.drop_zero]
  have : s.length - 1 + 1 - 0 = s.length := by omega
  rw [this, List.take_length]

lemma stripOpenFence_spec {tag rest : List Char}
    (htag : ∀ c ∈ tag, isFenceTagChar c = true)
    (hrest : rest.head? = some '{') :
    stripOpenFence ("```".toList ++ tag ++ '\n' :: rest) = rest := by
  cases rest with
  | nil => cases hrest
  | cons a t =>
    have ha : a = '{' := by simpa using hrest
    subst ha
    show (((('`' :: '`' :: '`' :: (tag ++ '\n' :: '{' :: t)).drop 3).dropWhile
      isFenceTagChar).dropWhile isSpaceChar) = '{' :: t
    rw [show ('`' :: '`' :: '`' :: (tag ++ '\n' :: '{' :: t)).drop 3 =
      tag ++ '\n' :: '{' :: t from rfl]
    rw [List.dropWhile_append_of_pos htag]
    rw [List.dropWhile_cons, show isFenceTagChar '\n' = false from rfl]
    simp only [Bool.false_eq_true, if_false]
    rw [List.dropWhile_cons, show isSpaceChar '\n' = true from rfl]
    simp only [if_true]
    rw [List.dropWhile_cons, show isSpaceChar '{' = false from rfl]
    simp

lemma stripCloseFence_spec {j : List Char} (hlast : j.getLast? = some '}') :
    stripCloseFence (j ++ "\n```".toList) = j := by
  obtain ⟨t, rfl⟩ := List.getLast?_eq_some_iff.mp hlast
  unfold stripCloseFence
  have hsfx : ("```".toList.isSuffixOf ((t ++ ['}']) ++ "\n```".toList)) = true := by
    rw [List.isSuffixOf_iff_suffix]
    rw [show (t ++ ['}']) ++ "\n```".toList =
      ((t ++ ['}']) ++ ['\n']) ++ "```".toList by simp]
    exact List.suffix_append _ _
  rw [if_pos hsfx]
  rw [show ((t ++ ['}']) ++ "\n```".toList).length - 3 =
    ((t ++ ['}']) ++ ['\n']).length by simp]
  rw [show (t ++ ['}']) ++ "\n```".toList =
    ((t ++ ['}']) ++ ['\n']) ++ "```".toList by simp]
  rw [List.take_left]
  unfold pyRStrip
  rw [List.reverse_append, List.reverse_singleton, List.singleton_append,
    List.dropWhile_cons, show isSpaceChar '\n' = true from rfl]
  simp only [if_true]
  rw [List.reverse_append, List.reverse_singleton, List.singleton_append,
    List.dropWhile_cons, show isSpaceChar '}' = false from rfl]
  simp

/-- The head and the last character of a fenced reply are backticks, so the
initial `strip()` leaves it unchanged. -/
lemma pyStrip_fenced (tag mid : List Char) :
    pyStrip ("```".toList ++ tag ++ '\n' :: (mid ++ "\n```".toList)) =
      "```".toList ++ tag ++ '\n' :: (mid ++ "\n```".toList) := by
  apply pyStrip_of_ends (c := '`') (d := '`')
  · rfl
  · rfl
  · rw [show "```".toList ++ tag ++ '\n' :: (mid ++ "\n```".toList) =
      ("```".toList ++ tag ++ '\n' :: (mid ++ "\n``".toList)) ++ ['`'] by simp]
    exact List.getLast?_concat _
  · rfl

/-- C6: for every JSON text of an object (first character `{`, last `}`) that
`json.loads` accepts, and every language tag of word characters (possibly
empty), wrapping it in Markdown code fences still recovers the same value:
`coerce_json_from_model` strips the fences, the slice from the first `{` to
the last `}` is exactly the object text, and parsing succeeds. -/
theorem coerce_json_recovers_fenced (tag j : List Char) (v : Json)
    (htag : ∀ c ∈ tag, isFenceTagChar c = true)
    (hhead : j.head? = some '{')
    (hlast : j.getLast? = some '}')
    (hload : json_loads j = some v) :
    coerce_json_from_model ("```".toList ++ tag ++ '\n' :: (j ++ "\n```".toList)) =
      some v := by
  obtain ⟨t, hj⟩ : ∃ t, j = '{' :: t := by
    cases j with
    | nil => cases hhead
    | cons a t => exact ⟨t, by rw [show a = '{' from by simpa using hhead]⟩
  have htne : t ≠ [] := by
    intro h
    rw [hj, h] at hlast
    simp at hlast
  have hjlen : 2 ≤ j.length := by
    rw [hj]
    cases t with
    | nil => exact absurd rfl htne
    | cons b u => simp
  have hstrip := pyStrip_fenced tag j
  have hpre : ("```".toList.isPrefixOf
      ("```".toList ++ tag ++ '\n' :: (j ++ "\n```".toList))) = true := by
    rw [List.isPrefixOf_iff_prefix]
    rw [show "```".toList ++ tag ++ '\n' :: (j ++ "\n```".toList) =
      "```".toList ++ (tag ++ '\n' :: (j ++ "\n```".toList)) by simp]
    exact List.prefix_append _ _
  have hopen : stripOpenFence ("```".toList ++ tag ++ '\n' :: (j ++ "\n```".toList)) =
      j ++ "\n```".toList := by
    apply stripOpenFence_spec htag
    rw [hj]
    rfl
  have hclose := stripCloseFence_spec hlast
  have hfind : pyFind j '{' = 0 := by rw [hj]; exact pyFind_of_head
  have hrfind : pyRFind j '}' = ((j.length - 1 : Nat) : Int) :=
    pyRFind_of_getLast hlast
  have hcond : (0 : Int) ≠ -1 ∧ ((j.length - 1 : Nat) : Int) ≠ -1 ∧
      (0 : Int) < ((j.length - 1 : Nat) : Int) :=
    ⟨by norm_num, by omega, by omega⟩
  have hslice := sliceIncl_zero_last (s := j) (by omega)
  unfold coerce_json_from_model
  simp only [hstrip, hpre, if_true, hopen, hclose, hfind, hrfind]
  rw [if_pos hcond, hslice, hload]

/-- Witness for C6: the fenced example of the claim parses to the object with
score 77 and reason "strong match". -/
theorem coerce_json_recovers_fenced_witness :
    coerce_json_from_model
      ("```".toList ++ "json".toList ++ '\n' ::
        ("\x7b\"score\": 77, \"reason\": \"strong match\"\x7d".toList ++ "\n```".toList)) =
      some (.obj [("score".toList, .num ⟨77, 1, Nat.one_pos⟩),
                  ("reason".toList, .str ("strong match".toList))]) :=
  coerce_json_recovers_fenced ("json".toList)
    ("\x7b\"score\": 77, \"reason\": \"strong match\"\x7d".toList) _
    (by decide) (by rfl) (by rfl) (by rfl)

/-- C7 counterexample: this reply contains exactly one well-formed JSON
object surrounded by prose, but because the code slices from the first `{` to
the LAST `}` (not to the first balanced span), the trailing `}` of the prose
is included, the slice is not valid JSON, and recovery fails (`none`, so the
caller falls back to the neutral score) instead of yielding the object. -/
theorem coerce_json_first_balanced_cex :
    coerce_json_from_model
      ("Sure! \x7b\"score\": 9, \"reason\": \"ok\"\x7d I hope this helps\x7d".toList) =
      none := by rfl

lemma pyLStrip_append {p X : List Char} {c : Char} (h : X.head? = some c)
    (hc : isSpaceChar c = false) : pyLStrip (p ++ X) = pyLStrip p ++ X := by
  unfold pyLStrip
  rw [List.dropWhile_append]
  split
  · next hemp =>
    rw [List.isEmpty_iff.mp hemp]
    rw [List.nil_append]
    cases X with
    | nil => cases h
    | cons a t =>
      rw [show a = c from by simpa using h]
      rw [List.dropWhile_cons, hc]
      simp
  · rfl

lemma pyRStrip_append {Y q : List Char} {c : Char} (h : Y.getLast? = some c)
    (hc : isSpaceChar c = false) : pyRStrip (Y ++ q) = Y ++ pyRStrip q := by
  unfold pyRStrip
  rw [List.reverse_append, List.dropWhile_append]
  split
  · next hemp =>
    rw [List.isEmpty_iff.mp hemp]
    obtain ⟨t, rfl⟩ := List.getLast?_eq_some_iff.mp h
    rw [List.reverse_append, List.reverse_singleton, List.singleton_append,
      List.dropWhile_cons, hc]
    simp
  · rw [List.reverse_append]
    simp

/-- C7 amended: after fence stripping the code slices from the first `{` to
the last `}` (not to the first balanced span); consequently a reply
containing one well-formed JSON object surrounded by prose parses to that
object provided the leading prose contains no `{` and the trailing prose
contains no `}` (and the reply does not begin with a code fence). -/
theorem coerce_json_prose_wrapped (p j q : List Char) (v : Json)
    (hfence : ("```".toList.isPrefixOf (pyStrip (p ++ (j ++ q)))) = false)
    (hp : ∀ x ∈ p, x ≠ '{')
    (hq : ∀ x ∈ q, x ≠ '}')
    (hhead : j.head? = some '{')
    (hlast : j.getLast? = some '}')
    (hload : json_loads j = some v) :
    coerce_json_from_model (p ++ (j ++ q)) = some v := by
  obtain ⟨t, hj⟩ : ∃ t, j = '{' :: t := by
    cases j with
    | nil => cases hhead
    | cons a t => exact ⟨t, by rw [show a = '{' from by simpa using hhead]⟩
  have htne : t ≠ [] := by
    intro h
    rw [hj, h] at hlast
    simp at hlast
  have hjlen : 2 ≤ j.length := by
    rw [hj]
    cases t with
    | nil => exact absurd rfl htne
    | cons b u => simp
  -- the strip acts only on the prose ends
  have hstrip : pyStrip (p ++ (j ++ q)) = pyLStrip p ++ (j ++ pyRStrip q) := by
    unfold pyStrip
    rw [pyLStrip_append (c := '{') (by rw [hj]; rfl) rfl]
    rw [show pyLStrip p ++ (j ++ q) = (pyLStrip p ++ j) ++ q by simp]
    rw [pyRStrip_append (c := '}') (by rw [List.getLast?_append, hlast]; rfl) rfl]
    simp
  have hpmem : ∀ x ∈ pyLStrip p, x ≠ '{' :=
    fun x hx => hp x ((List.dropWhile_sublist _).subset hx)
  have hqmem : ∀ x ∈ pyRStrip q, x ≠ '}' := fun x hx => by
    refine hq x ?_
    unfold pyRStrip at hx
    have := (List.dropWhile_sublist (l := q.reverse) isSpaceChar).subset
      (List.mem_reverse.mp hx)
    exact List.mem_reverse.mp this
  have hfind : pyFind (pyLStrip p ++ (j ++ pyRStrip q)) '{' = ((pyLStrip p).length : Int) :=
    pyFind_append_of_head hpmem (by rw [hj]; rfl)
  have hrfind : pyRFind (pyLStrip p ++ (j ++ pyRStrip q)) '}' =
      (((pyLStrip p ++ j).length - 1 : Nat) : Int) := by
    rw [show pyLStrip p ++ (j ++ pyRStrip q) = (pyLStrip p ++ j) ++ pyRStrip q by simp]
    exact pyRFind_append_of_getLast hqmem (by rw [List.getLast?_append, hlast]; rfl)
  have hlen : (pyLStrip p ++ j).length = (pyLStrip p).length + j.length := by simp
  have hcond : ((pyLStrip p).length : Int) ≠ -1 ∧
      (((pyLStrip p ++ j).length - 1 : Nat) : Int) ≠ -1 ∧
      ((pyLStrip p).length : Int) < (((pyLStrip p ++ j).length - 1 : Nat) : Int) := by
    refine ⟨by omega, by omega, ?_⟩
    rw [hlen]
    omega
  have hslice : sliceIncl (pyLStrip p ++ (j ++ pyRStrip q)) ((pyLStrip p).length : Int)
      (((pyLStrip p ++ j).length - 1 : Nat) : Int) = j := by
    unfold sliceIncl
    rw [Int.toNat_natCast, Int.toNat_natCast, List.drop_left, hlen]
    rw [show (pyLStrip p).length + j.length - 1 + 1 - (pyLStrip p).length = j.length by omega]
    exact List.take_left _ _
  rw [hstrip] at hfence
  unfold coerce_json_from_model
  simp only [hstrip, hfence, Bool.false_eq_true, if_false, hfind, hrfind]
  rw [if_pos hcond, hslice, hload]

/-- Witness for C7 (amended) at a reply with brace-free prose around the
object. -/
theorem coerce_json_prose_wrapped_witness :
    coerce_json_from_model
      ("Sure! ".toList ++ ("\x7b\"score\": 9, \"reason\": \"ok\"\x7d".toList ++
        " I hope this helps".toList)) =
      some (.obj [("score".toList, .num ⟨9, 1, Nat.one_pos⟩),
                  ("reason".toList, .str ("ok".toList))]) :=
  coerce_json_prose_wrapped ("Sure! ".toList)
    ("\x7b\"score\": 9, \"reason\": \"ok\"\x7d".toList)
    (" I hope this helps".toList) _
    (by rfl) (by decide) (by decide) (by rfl) (by rfl) (by rfl)

/-! # Lemmas about the screening loop -/

lemma screenLoop_cons_good {jm : Bool} {replies : Nat → List Char}
    {qt : List Char} {f : ScreenedFile} {rest : List ScreenedFile}
    {acc : List Candidate} {n : Nat} {g : MTState}
    (hf : isPdfName f.filename = true) :
    screenLoop true jm replies qt (f :: rest) acc n g =
      screenLoop true jm replies qt rest
        (acc ++ [mkCandidate (candName f.filename) f.text
          (openai_clamp (openai_parse_reply (replies n)).1)]) (n + 1) g := by
  simp only [screenLoop, hf, Bool.not_true, Bool.false_eq_true, if_false,
    USE_OPENAI, if_true]
  rw [openai_score_cv_ok]

lemma screenLoop_cons_bad {jm : Bool} {replies : Nat → List Char}
    {qt : List Char} {f : ScreenedFile} {rest : List ScreenedFile}
    {acc : List Candidate} {n : Nat} {g : MTState}
    (hf : isPdfName f.filename = false) :
    screenLoop true jm replies qt (f :: rest) acc n g =
      (.error ⟨400, "Only PDFs allowed: ".toList ++ f.filename⟩, n) := by
  simp only [screenLoop, hf, Bool.not_false, if_true]

/-- When a non-PDF filename is present, the loop raises a 400 error and the
scorer has been invoked exactly once per file before the first offender. -/
lemma screenLoop_first_bad (jm : Bool) (replies : Nat → List Char) (qt : List Char)
    (files : List ScreenedFile) :
    ∀ (acc : List Candidate) (n : Nat) (g : MTState),
      files.any (fun f => !isPdfName f.filename) = true →
      (∃ d, (screenLoop true jm replies qt files acc n g).1 = .error ⟨400, d⟩) ∧
      (screenLoop true jm replies qt files acc n g).2 =
        n + files.findIdx (fun f => !isPdfName f.filename) := by
  induction files with
  | nil => intro acc n g h; simp at h
  | cons f rest ih =>
    intro acc n g h
    by_cases hf : isPdfName f.filename
    · have hrest : rest.any (fun f => !isPdfName f.filename) = true := by
        simpa [hf] using h
      obtain ⟨⟨d, hd⟩, hc⟩ := ih _ (n + 1) g hrest
      rw [screenLoop_cons_good hf]
      refine ⟨⟨d, hd⟩, ?_⟩
      rw [hc, List.findIdx_cons]
      simp only [hf, Bool.not_true, cond_false]
      omega
    · rw [screenLoop_cons_bad (by simpa using hf)]
      refine ⟨⟨_, rfl⟩, ?_⟩
      rw [List.findIdx_cons]
      simp only [Bool.not_eq_true] at hf
      simp [hf]

/-- C3 (amended): if a batch contains a non-PDF filename (qualities
nonempty, client configured), the endpoint fails with a 400 error — but
scoring is NOT skipped for the whole batch: the scorers run exactly once for
each candidate strictly before the first non-PDF file, and those results are
discarded.  In particular no candidate at or after the first offending file
is scored. -/
theorem screen_candidates_nonpdf_400 (jm : Bool) (replies : Nat → List Char)
    (g : MTState) (files : List ScreenedFile) (qualities : List Char)
    (hq : ((pyStrip qualities).isEmpty) = false)
    (hbad : files.any (fun f => !isPdfName f.filename) = true) :
    (∃ d, (screen_candidates true jm replies g files qualities).1 = .error ⟨400, d⟩) ∧
    (screen_candidates true jm replies g files qualities).2 =
      files.findIdx (fun f => !isPdfName f.filename) := by
  have hne : files.isEmpty = false := by
    cases files with
    | nil => simp at hbad
    | cons f rest => rfl
  obtain ⟨⟨d, hd⟩, hc⟩ :=
    screenLoop_first_bad jm replies
      (if (((pySplitlines qualities).map pyStrip).filter (fun q => !q.isEmpty)).isEmpty
        then pyStrip qualities
        else List.intercalate ("\n".toList)
          ((((pySplitlines qualities).map pyStrip).filter
            (fun q => !q.isEmpty)).map (fun q => "- ".toList ++ q)))
      files [] 0 g hbad
  unfold screen_candidates
  rw [hne, hq]
  simp only [Bool.false_eq_true, if_false]
  cases hsl : screenLoop true jm replies
      (if (((pySplitlines qualities).map pyStrip).filter (fun q => !q.isEmpty)).isEmpty
        then pyStrip qualities
        else List.intercalate ("\n".toList)
          ((((pySplitlines qualities).map pyStrip).filter
            (fun q => !q.isEmpty)).map (fun q => "- ".toList ++ q)))
      files [] 0 g with
  | mk r cnt =>
    rw [hsl] at hd hc
    cases r with
    | ok res => simp at hd
    | error e =>
      simp only at hd hc
      have he : e = ⟨400, d⟩ := Except.error.inj hd
      subst he
      exact ⟨⟨d, rfl⟩, by simpa using hc⟩

/-- C3 counterexample: for the batch `[a.pdf, b.txt]` the endpoint does
return a 400 error, but the claim's "performs no scoring" part fails: the
invocation counter is 1, i.e. the external scorer ran for `a.pdf` before the
offending filename was seen. -/
theorem screen_candidates_nonpdf_cex :
    screen_candidates true true (fun _ => "\x7b\"score\": 70\x7d".toList) ⟨[], 0⟩
      [⟨"a.pdf".toList, []⟩, ⟨"b.txt".toList, []⟩] ("x".toList) =
      (.error ⟨400, "Only PDFs allowed: b.txt".toList⟩, 1) := by rfl

/-- Witness for C3 (amended) at the same batch. -/
theorem screen_candidates_nonpdf_400_witness :
    (∃ d, (screen_candidates true true (fun _ => "\x7b\"score\": 70\x7d".toList) ⟨[], 0⟩
      [⟨"a.pdf".toList, []⟩, ⟨"b.txt".toList, []⟩] ("x".toList)).1 = .error ⟨400, d⟩) ∧
    (screen_candidates true true (fun _ => "\x7b\"score\": 70\x7d".toList) ⟨[], 0⟩
      [⟨"a.pdf".toList, []⟩, ⟨"b.txt".toList, []⟩] ("x".toList)).2 =
      [(⟨"a.pdf".toList, []⟩ : ScreenedFile), ⟨"b.txt".toList, []⟩].findIdx
        (fun f => !isPdfName f.filename) :=
  screen_candidates_nonpdf_400 true (fun _ => "\x7b\"score\": 70\x7d".toList) ⟨[], 0⟩
    [⟨"a.pdf".toList, []⟩, ⟨"b.txt".toList, []⟩] ("x".toList) (by rfl) (by rfl)

/-! # Sortedness of the response -/

lemma isFin_exists {s : PyFloat} (h : s.isFin = true) : ∃ q, s = .fin q := by
  cases s with
  | fin q => exact ⟨q, rfl⟩
  | pinf => simp [PyFloat.isFin] at h
  | ninf => simp [PyFloat.isFin] at h
  | nan => simp [PyFloat.isFin] at h

lemma pyLtB_fin_false_iff {a b : PyQ} :
    pyLtB (.fin a) (.fin b) = false ↔ ¬ a.toQ < b.toQ := by
  rw [show pyLtB (.fin a) (.fin b) = a.blt b from rfl]
  rw [← Bool.not_eq_true, PyQ.blt_iff]

lemma pyLtB_fin_true_iff {a b : PyQ} :
    pyLtB (.fin a) (.fin b) = true ↔ a.toQ < b.toQ := by
  rw [show pyLtB (.fin a) (.fin b) = a.blt b from rfl, PyQ.blt_iff]

lemma mem_insertDesc {x c : Candidate} {l : List Candidate} :
    c ∈ insertDesc x l ↔ c = x ∨ c ∈ l := by
  induction l with
  | nil => simp [insertDesc]
  | cons y ys ih =>
    unfold insertDesc
    split
    · simp [List.mem_cons]
    · simp only [List.mem_cons, ih]
      tauto

lemma insertDesc_pairwise {x : Candidate} {l : List Candidate}
    (hx : x.score.isFin = true) (hl : ∀ c ∈ l, c.score.isFin = true)
    (h : l.Pairwise (fun a b => pyLtB a.score b.score = false)) :
    (insertDesc x l).Pairwise (fun a b => pyLtB a.score b.score = false) := by
  induction l with
  | nil => simp [insertDesc]
  | cons y ys ih =>
    rw [List.pairwise_cons] at h
    obtain ⟨hy, hys⟩ := h
    have hyfin := hl y (List.mem_cons_self y ys)
    obtain ⟨qx, hqx⟩ := isFin_exists hx
    obtain ⟨qy, hqy⟩ := isFin_exists hyfin
    unfold insertDesc
    split
    · next hlt =>
      rw [hqy, hqx, pyLtB_fin_true_iff] at hlt
      rw [List.pairwise_cons]
      refine ⟨?_, List.Pairwise.cons hy hys⟩
      intro z hz
      rcases List.mem_cons.mp hz with hzy | hzys
      · subst hzy
        rw [hqx, hqy, pyLtB_fin_false_iff]
        intro hcon
        linarith
      · obtain ⟨qz, hqz⟩ := isFin_exists (hl z hz)
        have hyz := hy z hzys
        rw [hqy, hqz, pyLtB_fin_false_iff] at hyz
        rw [hqx, hqz, pyLtB_fin_false_iff]
        intro hcon
        exact hyz (by linarith)
    · next hnlt =>
      have hnlt' : pyLtB y.score x.score = false := by
        cases hb : pyLtB y.score x.score
        · rfl
        · exact absurd hb hnlt
      rw [List.pairwise_cons]
      refine ⟨?_, ih (fun c hc => hl c (List.mem_cons_of_mem _ hc)) hys⟩
      intro z hz
      rcases mem_insertDesc.mp hz with hzx | hzys
      · subst hzx
        exact hnlt'
      · exact hy z hzys

lemma foldl_insertDesc_pairwise (l : List Candidate) :
    ∀ acc : List Candidate, (∀ c ∈ l, c.score.isFin = true) →
      (∀ c ∈ acc, c.score.isFin = true) →
      acc.Pairwise (fun a b => pyLtB a.score b.score = false) →
      (l.foldl (fun a x => insertDesc x a) acc).Pairwise
        (fun a b => pyLtB a.score b.score = false) := by
  induction l with
  | nil => intro acc _ _ h; exact h
  | cons x xs ih =>
    intro acc hl hacc hpw
    rw [List.foldl_cons]
    refine ih _ (fun c hc => hl c (List.mem_cons_of_mem _ hc)) ?_ ?_
    · intro c hc
      rcases mem_insertDesc.mp hc with hcx | hca
      · subst hcx
        exact hl c (List.mem_cons_self c xs)
      · exact hacc c hca
    · exact insertDesc_pairwise (hl x (List.mem_cons_self x xs)) hacc hpw

/-- Every record the loop appends carries a finite (clamped) score. -/
lemma screenLoop_ok_scores_fin (jm : Bool) (replies : Nat → List Char)
    (qt : List Char) (files : List ScreenedFile) :
    ∀ (acc : List Candidate) (n : Nat) (g : MTState) (l : List Candidate) (m : Nat),
      screenLoop true jm replies qt files acc n g = (.ok l, m) →
      (∀ c ∈ acc, c.score.isFin = true) → ∀ c ∈ l, c.score.isFin = true := by
  induction files with
  | nil =>
    intro acc n g l m h hacc
    have h1 : (Except.ok acc : Except HTTPError (List Candidate)) = .ok l :=
      congrArg Prod.fst h
    exact (Except.ok.inj h1) ▸ hacc
  | cons f rest ih =>
    intro acc n g l m h hacc
    by_cases hf : isPdfName f.filename
    · rw [screenLoop_cons_good hf] at h
      refine ih _ _ _ _ _ h ?_
      intro c hc
      rcases List.mem_append.mp hc with hca | hcx
      · exact hacc c hca
      · have hc' : c = mkCandidate (candName f.filename) f.text
            (openai_clamp (openai_parse_reply (replies n)).1) := by simpa using hcx
        subst hc'
        obtain ⟨q, hq, _⟩ := openai_clamp_spec (openai_parse_reply (replies n)).1
        show (openai_clamp (openai_parse_reply (replies n)).1).isFin = true
        rw [hq]
        rfl
    · rw [screenLoop_cons_bad (by simpa using hf)] at h
      have h1 : (Except.error ⟨400, "Only PDFs allowed: ".toList ++ f.filename⟩ :
          Except HTTPError (List Candidate)) = .ok l := congrArg Prod.fst h
      cases h1

/-- With the client unavailable, a nonempty loop always raises. -/
lemma screenLoop_clientFalse (jm : Bool) (replies : Nat → List Char)
    (qt : List Char) (f : ScreenedFile) (rest : List ScreenedFile)
    (acc : List Candidate) (n : Nat) (g : MTState) :
    ∃ e m, screenLoop false jm replies qt (f :: rest) acc n g = (.error e, m) := by
  by_cases hf : isPdfName f.filename
  · refine ⟨⟨500, "OpenAI client not initialized.".toList⟩, n + 1, ?_⟩
    simp only [screenLoop, hf, Bool.not_true, Bool.false_eq_true, if_false,
      USE_OPENAI, if_true]
    rfl
  · refine ⟨⟨400, "Only PDFs allowed: ".toList ++ f.filename⟩, n, ?_⟩
    simp only [screenLoop, (by simpa using hf : isPdfName f.filename = false),
      Bool.not_false, if_true]

/-- Whatever reaches the sorting step comes out pairwise descending. -/
lemma screenLoop_match_sorted {clientOk jm : Bool} {replies : Nat → List Char}
    {qt : List Char} {files : List ScreenedFile} {g : MTState} {l : List Candidate}
    (h : (match screenLoop clientOk jm replies qt files [] 0 g with
      | (.ok res, n) => ((.ok (sortByScoreDesc res) : Except HTTPError (List Candidate)), n)
      | (.error e, n) => (.error e, n)).1 = .ok l) :
    l.Pairwise (fun a b => pyLtB a.score b.score = false) := by
  cases clientOk with
  | false =>
    cases files with
    | nil =>
      have h1 : (Except.ok (sortByScoreDesc []) : Except HTTPError (List Candidate)) =
          .ok l := h
      rw [← Except.ok.inj h1]
      exact List.Pairwise.nil
    | cons f rest =>
      obtain ⟨e, m, hsl⟩ := screenLoop_clientFalse jm replies qt f rest [] 0 g
      rw [hsl] at h
      simp at h
  | true =>
    cases hsl : screenLoop true jm replies qt files [] 0 g with
    | mk r cnt =>
      rw [hsl] at h
      cases r with
      | error e => simp at h
      | ok res =>
        have hl : sortByScoreDesc res = l := Except.ok.inj h
        rw [← hl]
        exact foldl_insertDesc_pairwise res []
          (screenLoop_ok_scores_fin jm replies qt files [] 0 g res cnt hsl
            (fun c hc => absurd hc (List.not_mem_nil c)))
          (fun c hc => absurd hc (List.not_mem_nil c))
          List.Pairwise.nil

/-- C5: for every batch that completes, the response list returned by
`screen_candidates` is sorted in descending order of the score field: no
entry's score is Python-less-than a later entry's score. -/
theorem screen_candidates_sorted (clientOk jm : Bool) (replies : Nat → List Char)
    (g : MTState) (files : List ScreenedFile) (qualities : List Char)
    (l : List Candidate)
    (h : (screen_candidates clientOk jm replies g files qualities).1 = .ok l) :
    l.Pairwise (fun a b => pyLtB a.score b.score = false) := by
  unfold screen_candidates at h
  by_cases hfe : files.isEmpty = true
  · rw [if_pos hfe] at h
    simp at h
  rw [if_neg hfe] at h
  by_cases hqe : (pyStrip qualities).isEmpty = true
  · rw [if_pos hqe] at h
    simp at h
  rw [if_neg hqe] at h
  exact screenLoop_match_sorted h

set_option maxRecDepth 100000 in
set_option maxHeartbeats 1000000 in
/-- Witness for C5: with replies scoring 40 for `a.pdf` and 90 for `b.pdf`,
the completed response lists the 90-scorer first and is pairwise
descending. -/
theorem screen_candidates_sorted_witness :
    ([⟨"312e91d4b6".toList, "b".toList, .fin ⟨9000, 100, by norm_num⟩, none⟩,
      ⟨"d616db3cc1".toList, "a".toList, .fin ⟨4000, 100, by norm_num⟩, none⟩] :
      List Candidate).Pairwise (fun a b => pyLtB a.score b.score = false) :=
  screen_candidates_sorted true true
    (fun n => if n = 0 then "\x7b\"score\": 40, \"reason\": \"meh\"\x7d".toList
      else "\x7b\"score\": 90, \"reason\": \"great\"\x7d".toList)
    ⟨[], 0⟩ [⟨"a.pdf".toList, []⟩, ⟨"b.pdf".toList, []⟩] ("x".toList) _ (by rfl)

set_option maxRecDepth 100000 in
set_option maxHeartbeats 1000000 in
/-- C9 counterexample: uploading the same file twice (same basename `a`, same
extracted-text length) completes, but the two response records carry the SAME
10-character id, so the ids of one response are not pairwise distinct. -/
theorem response_ids_not_distinct_cex :
    responseIdsDistinct (screen_candidates true true
      (fun _ => "\x7b\"score\": 70\x7d".toList) ⟨[], 0⟩
      [⟨"a.pdf".toList, []⟩, ⟨"a.pdf".toList, []⟩] ("x".toList)) = false := by rfl

/-- C9 amended: within one response the id of a candidate is a function of
the candidate name and the extracted-text length alone — two candidates
sharing both (e.g. duplicate uploads) share an id, so identifiers distinguish
candidates only up to (name, text-length) pairs (and truncated-hash
collisions), not pairwise. -/
theorem candidate_id_only_name_and_length (name t1 t2 : List Char)
    (s1 s2 : PyFloat) (h : t1.length = t2.length) :
    (mkCandidate name t1 s1).id = (mkCandidate name t2 s2).id := by
  simp only [mkCandidate]
  exact congrArg (mkId name) h

/-- Witness for C9 (amended) at two distinct texts of equal length. -/
theorem candidate_id_only_name_and_length_witness :
    (mkCandidate ("a".toList) ("xy".toList) (.fin (PyQ.ofInt 1))).id =
      (mkCandidate ("a".toList) ("ab".toList) (.fin (PyQ.ofInt 2))).id :=
  candidate_id_only_name_and_length ("a".toList) ("xy".toList) ("ab".toList)
    (.fin (PyQ.ofInt 1)) (.fin (PyQ.ofInt 2)) (by rfl)

end AIScreen
